import Mathlib

/-!
Verification of the synthetic tabular data generation and augmentation engine
(`data_gen_module.py`) against its natural-language specification.

The Python source is shallowly embedded:
* Python integers become `ℤ`/`ℕ`, Python floats become `ℚ` (the floating-point
  rounding of the hardware float type is not modelled; no claim depends on it).
* Random draws (`numpy.random.*`, `random.*`, the faker library) are modelled
  as explicit stream arguments bundled into provider structures: the i-th draw
  of a primitive is the provider field applied to `i` (and to the distribution
  parameters the source passes to the primitive).  This makes every function a
  pure, executable function of its inputs and the provider.
* Fallible code paths (Python exceptions, and the print-and-return aborts of
  the prompt parser) are modelled with `Except String`, the `String` holding
  the message the source prints/raises.
* `pandas` dataframes / Python dicts become ordered association lists of
  (column name, cell list); Python dict insertion-order semantics are modelled
  by `dictInsert` below.  A missing value (`NaN`) is a `none` cell.
-/

namespace DataGen

/-! ## Values and cells -/

/-- A scalar value of a generated dataset (int64 / float64 / string column
kinds of the source).  Floats are modelled as rationals. -/
inductive Value where
  | vInt : ℤ → Value
  | vRat : ℚ → Value
  | vStr : String → Value
deriving DecidableEq, Repr

/-- A dataframe cell: `none` is a missing value (NaN). -/
abbrev Cell := Option Value

/-- A dataframe column. -/
abbrev Col := List Cell

/-- A dataframe: ordered list of named, equal-length columns. -/
abbrev Table := List (String × Col)

/-! ## Identifier allocator: `generate_pid_column` (source lines 76-86)

```python
def generate_pid_column(n, existing_ids=None):
    existing_ids = existing_ids or set()
    new_ids = []
    current = max(existing_ids) + 1 if existing_ids else 10000
    while len(new_ids) < n:
        if current not in existing_ids:
            new_ids.append(current)
            current += 1
        else:
            current += 1
    return new_ids
```
The while loop is embedded with explicit fuel; `n + existing.card` steps
always suffice (each step either emits a fresh id or skips a used one, and
skips only happen at members of `existing`, in fact never from the actual
start value). -/

/-- Start value of the allocator: `max(existing_ids) + 1 if existing_ids else 10000`. -/
def pidStart (existing : Finset ℤ) : ℤ :=
  if h : existing.Nonempty then existing.max' h + 1 else 10000

/-- The allocator's while loop, fuelled. -/
def pidLoop (existing : Finset ℤ) : ℕ → ℤ → ℕ → List ℤ
  | 0, _, _ => []
  | _ + 1, _, 0 => []
  | fuel + 1, current, need + 1 =>
      if current ∈ existing then pidLoop existing fuel (current + 1) (need + 1)
      else current :: pidLoop existing fuel (current + 1) need

/-- `generate_pid_column(n, existing_ids)`. -/
def generate_pid_column (n : ℕ) (existing : Finset ℤ) : List ℤ :=
  pidLoop existing (n + existing.card) (pidStart existing) n

/-- When every used id lies below `current`, the loop never skips and emits
the consecutive ids `current, current+1, …`. -/
theorem pidLoop_eq_range (existing : Finset ℤ) :
    ∀ (n fuel : ℕ) (current : ℤ), n ≤ fuel →
      (∀ x ∈ existing, x < current) →
      pidLoop existing fuel current n
        = (List.range n).map (fun i : ℕ => current + (i : ℤ)) := by
  intro n
  induction n with
  | zero =>
      intro fuel current _ _
      cases fuel <;> simp [pidLoop]
  | succ m ih =>
      intro fuel current hfuel hbelow
      obtain ⟨f, rfl⟩ : ∃ f, fuel = f + 1 := ⟨fuel - 1, by omega⟩
      have hcur : current ∉ existing := fun hmem => lt_irrefl _ (hbelow _ hmem)
      have hbelow' : ∀ x ∈ existing, x < current + 1 := fun x hx =>
        lt_trans (hbelow x hx) (by omega)
      rw [pidLoop, if_neg hcur, ih f (current + 1) (by omega) hbelow',
        List.range_succ_eq_map, List.map_cons, List.map_map]
      refine congrArg₂ List.cons (by push_cast; ring) ?_
      apply List.map_congr_left
      intro i _
      simp only [Function.comp_apply]
      push_cast
      ring

/-- Every existing id lies below the start value. -/
theorem lt_pidStart (existing : Finset ℤ) : ∀ x ∈ existing, x < pidStart existing := by
  intro x hx
  unfold pidStart
  split
  · exact lt_of_le_of_lt (Finset.le_max' existing x hx) (by omega)
  · next h => exact absurd ⟨x, hx⟩ h

/-- Normal form of the allocator: the consecutive integers starting at
`pidStart existing`. -/
theorem generate_pid_column_eq_range (n : ℕ) (existing : Finset ℤ) :
    generate_pid_column n existing
      = (List.range n).map (fun i : ℕ => pidStart existing + (i : ℤ)) :=
  pidLoop_eq_range existing n (n + existing.card) (pidStart existing)
    (by omega) (lt_pidStart existing)

/-- C1: for every `n ≥ 0` and finite set `existing` of integers,
`generate_pid_column` returns exactly `n` pairwise-distinct values, none of
which is in `existing`; when `existing` is non-empty every returned value is
greater than `max existing` and allocation starts at `max existing + 1`,
otherwise every value is `≥ 10000` (and allocation starts at 10000); the
sequence is strictly increasing in steps of 1 (and, being a pure function of
its arguments, deterministic). -/
theorem generate_pid_column_spec (n : ℕ) (existing : Finset ℤ) :
    (generate_pid_column n existing).length = n ∧
    (generate_pid_column n existing).Nodup ∧
    (∀ x ∈ generate_pid_column n existing, x ∉ existing) ∧
    (∀ M : ℤ, existing.max = (M : WithBot ℤ) →
      (∀ x ∈ generate_pid_column n existing, M < x) ∧
      (n ≠ 0 → (generate_pid_column n existing).headD 0 = M + 1)) ∧
    (existing = ∅ → ∀ x ∈ generate_pid_column n existing, (10000 : ℤ) ≤ x) ∧
    (existing = ∅ → n ≠ 0 → (generate_pid_column n existing).headD 0 = 10000) ∧
    (∀ i : ℕ, i + 1 < n →
      (generate_pid_column n existing).getD (i + 1) 0
        = (generate_pid_column n existing).getD i 0 + 1) ∧
    List.Sorted (· < ·) (generate_pid_column n existing) := by
  have hnf := generate_pid_column_eq_range n existing
  have hget : ∀ i : ℕ, i < n →
      (generate_pid_column n existing)[i]? = some (pidStart existing + (i : ℤ)) := by
    intro i hi
    rw [hnf, List.getElem?_map, List.getElem?_range hi]
    rfl
  refine ⟨?_, ?_, ?_, ?_, ?_, ?_, ?_, ?_⟩
  · rw [hnf]; simp
  · rw [hnf]
    refine List.Nodup.map ?_ (List.nodup_range n)
    intro a b hab
    dsimp only at hab
    omega
  · rw [hnf]
    intro x hx hmem
    simp only [List.mem_map, List.mem_range] at hx
    obtain ⟨i, _, rfl⟩ := hx
    have := lt_pidStart existing _ hmem
    omega
  · intro M hM
    have hne : existing.Nonempty := by
      refine ⟨M, ?_⟩
      exact Finset.mem_of_max hM
    have hstart : pidStart existing = M + 1 := by
      unfold pidStart
      rw [dif_pos hne]
      have : ((existing.max' hne : ℤ) : WithBot ℤ) = (M : WithBot ℤ) := by
        rw [existing.coe_max' hne]; exact hM
      have hMM : existing.max' hne = M := by exact_mod_cast this
      omega
    constructor
    · rw [hnf]
      intro x hx
      simp only [List.mem_map, List.mem_range] at hx
      obtain ⟨i, _, rfl⟩ := hx
      omega
    · intro hn
      obtain ⟨m, rfl⟩ : ∃ m, n = m + 1 := ⟨n - 1, by omega⟩
      rw [List.headD_eq_head?, List.head?_eq_getElem?, hget 0 (by omega)]
      simp [hstart]
  · intro he
    have hstart : pidStart existing = 10000 := by
      unfold pidStart
      rw [dif_neg (by simp [he])]
    rw [hnf]
    intro x hx
    simp only [List.mem_map, List.mem_range] at hx
    obtain ⟨i, _, rfl⟩ := hx
    omega
  · intro he hn
    have hstart : pidStart existing = 10000 := by
      unfold pidStart
      rw [dif_neg (by simp [he])]
    obtain ⟨m, rfl⟩ : ∃ m, n = m + 1 := ⟨n - 1, by omega⟩
    rw [List.headD_eq_head?, List.head?_eq_getElem?, hget 0 (by omega)]
    simp [hstart]
  · intro i hi
    rw [List.getD_eq_getElem?_getD, List.getD_eq_getElem?_getD,
      hget (i + 1) hi, hget i (by omega)]
    simp only [Option.getD_some]
    push_cast
    ring
  · rw [hnf]
    refine List.Pairwise.map _ ?_ (List.pairwise_lt_range n)
    intro a b hab
    omega

/-- Witness for C1 at `n = 2`, `existing = {3, 5}`: two values, both above the
maximum 5, starting at 6. -/
theorem generate_pid_column_spec_witness :
    (generate_pid_column 2 ({3, 5} : Finset ℤ)).length = 2 ∧
    (∀ x ∈ generate_pid_column 2 ({3, 5} : Finset ℤ), (5 : ℤ) < x) ∧
    (generate_pid_column 2 ({3, 5} : Finset ℤ)).headD 0 = 6 := by
  obtain ⟨h1, _, _, h4, _⟩ := generate_pid_column_spec 2 ({3, 5} : Finset ℤ)
  have hmax : ({3, 5} : Finset ℤ).max = ((5 : ℤ) : WithBot ℤ) := by decide
  obtain ⟨h5, h6⟩ := h4 5 hmax
  exact ⟨h1, h5, h6 (by omega)⟩

/-! ## Derived email column: `generate_email_from_names` (source lines 69-74)

```python
def generate_email_from_names(names):
    emails = []
    for nm in names:
        base = nm.lower().replace(' ', '.').replace("'", '').replace('-', '')
        emails.append(base + "@example.com")
    return emails
```
`str.lower()` is modelled for the ASCII range by an explicit 26-entry table
(Python additionally lowercases non-ASCII letters; no claim involves them).
`replace(x, '')` removes every occurrence, so it is a `filter`. -/

/-- The apostrophe character (ASCII 39). -/
def apoChar : Char := Char.ofNat 39

/-- ASCII lowercase mapping table (uppercase letter, lowercase letter). -/
def lowerTable : List (Char × Char) :=
  [('A', 'a'), ('B', 'b'), ('C', 'c'), ('D', 'd'), ('E', 'e'), ('F', 'f'),
   ('G', 'g'), ('H', 'h'), ('I', 'i'), ('J', 'j'), ('K', 'k'), ('L', 'l'),
   ('M', 'm'), ('N', 'n'), ('O', 'o'), ('P', 'p'), ('Q', 'q'), ('R', 'r'),
   ('S', 's'), ('T', 't'), ('U', 'u'), ('V', 'v'), ('W', 'w'), ('X', 'x'),
   ('Y', 'y'), ('Z', 'z')]

/-- ASCII lowercasing of one character (`str.lower`, ASCII fragment). -/
def lowerChar (c : Char) : Char :=
  ((lowerTable.find? (fun p => p.1 = c)).map Prod.snd).getD c

/-- ASCII lowercasing of a string. -/
def lowerStr (s : String) : String := String.mk (s.toList.map lowerChar)

/-- The ASCII uppercase letters (what "no uppercase letters" quantifies over). -/
def uppercaseChars : List Char := lowerTable.map Prod.fst

/-- `nm.lower().replace(' ', '.').replace("'", '').replace('-', '') + "@example.com"`. -/
def emailOf (nm : String) : String :=
  String.mk (((((nm.toList.map lowerChar).map
      (fun c => if c = ' ' then '.' else c)).filter
      (fun c => c ≠ apoChar)).filter
      (fun c => c ≠ '-')))
    ++ "@example.com"

/-- `generate_email_from_names(names)`. -/
def generate_email_from_names (names : List String) : List String :=
  names.map emailOf

/-- Lowercasing never produces an ASCII uppercase letter. -/
theorem lowerChar_not_upper (c : Char) : lowerChar c ∉ uppercaseChars := by
  unfold lowerChar
  cases hf : lowerTable.find? (fun p => p.1 = c) with
  | some p =>
      have hmem := List.mem_of_find?_eq_some hf
      have hlow : ∀ q ∈ lowerTable, q.2 ∉ uppercaseChars := by decide
      simpa using hlow p hmem
  | none =>
      simp only [Option.map_none', Option.getD_none]
      intro hc
      have : ∀ q ∈ lowerTable, ¬ (q.1 = c) := by
        intro q hq
        have := List.find?_eq_none.mp hf q hq
        simpa using this
      have hfst : ∀ u ∈ uppercaseChars, ∃ q ∈ lowerTable, q.1 = u := by decide
      obtain ⟨q, hq, hq1⟩ := hfst c hc
      exact this q hq hq1

/-- The character list of a derived email: local part followed by the fixed
domain suffix. -/
theorem emailOf_toList (nm : String) :
    (emailOf nm).toList
      = ((((nm.toList.map lowerChar).map (fun c => if c = ' ' then '.' else c)).filter
          (fun c => c ≠ apoChar)).filter (fun c => c ≠ '-')) ++ "@example.com".toList := by
  simp [emailOf, String.toList, String.data_append]

/-- C3: `generate_email_from_names` returns one output per input (equal
lengths), the i-th output being computed from the i-th name by lowercasing,
replacing spaces with dots, stripping apostrophes and hyphens and appending
the fixed domain suffix; every output has no ASCII uppercase letter and no
space, ends with "@example.com", and is always produced (the function is
total, also on empty or degenerate names). -/
theorem generate_email_from_names_spec (names : List String) :
    (generate_email_from_names names).length = names.length ∧
    (∀ (i : ℕ) (e : String), (generate_email_from_names names)[i]? = some e →
      ∃ nm, names[i]? = some nm ∧ e = emailOf nm) ∧
    (∀ e ∈ generate_email_from_names names,
      (∀ c ∈ e.toList, c ∉ uppercaseChars) ∧
      (∀ c ∈ e.toList, c ≠ ' ') ∧
      "@example.com".toList <:+ e.toList) := by
  refine ⟨by simp [generate_email_from_names], ?_, ?_⟩
  · intro i e he
    rw [generate_email_from_names, List.getElem?_map] at he
    cases hn : names[i]? with
    | none => rw [hn] at he; simp at he
    | some nm =>
        rw [hn] at he
        simp only [Option.map_some'] at he
        exact ⟨nm, rfl, (Option.some.inj he).symm⟩
  · intro e he
    rw [generate_email_from_names, List.mem_map] at he
    obtain ⟨nm, _, rfl⟩ := he
    have hchars : ∀ c ∈ (emailOf nm).toList, c ∉ uppercaseChars ∧ c ≠ ' ' := by
      intro c hc
      rw [emailOf_toList] at hc
      rcases List.mem_append.mp hc with h | h
      · have h1 := List.mem_of_mem_filter (List.mem_of_mem_filter h)
        simp only [List.mem_map] at h1
        obtain ⟨x, ⟨y, _, rfl⟩, rfl⟩ := h1
        by_cases hsp : lowerChar y = ' '
        · rw [if_pos hsp]
          exact ⟨by decide, by decide⟩
        · rw [if_neg hsp]
          exact ⟨lowerChar_not_upper y, hsp⟩
      · have : ∀ c ∈ "@example.com".toList, c ∉ uppercaseChars ∧ c ≠ ' ' := by decide
        exact this c h
    refine ⟨fun c hc => (hchars c hc).1, fun c hc => (hchars c hc).2, ?_⟩
    rw [emailOf_toList]
    exact ⟨_, rfl⟩

/-- Witness for C3 at `names = ["Al O-Bo"]`: one output, equal to the derived
email of the one input. -/
theorem generate_email_from_names_spec_witness :
    (generate_email_from_names ["Al O-Bo"]).length = 1 ∧
    (∃ nm, (["Al O-Bo"] : List String)[0]? = some nm
      ∧ "al.obo@example.com" = emailOf nm) := by
  obtain ⟨h1, h2, _⟩ := generate_email_from_names_spec ["Al O-Bo"]
  exact ⟨h1, h2 0 "al.obo@example.com" (by decide)⟩

/-! ## Distribution fitter: `fit_numeric_distributions` (source lines 101-109)

```python
def fit_numeric_distributions(df, numeric_cols):
    stats = {}
    for col in numeric_cols:
        series = df[col].dropna()
        stats[col] = {
            'mean': series.mean(),
            'std': series.std() if series.std() > 0 else 1
        }
    return stats
```
`series.std()` is the sample standard deviation (ddof = 1), i.e.
`sqrt(Σ (x - mean)² / (n - 1))`, and is NaN when fewer than two values remain
after `dropna` (NaN > 0 is false, so the NaN case also yields 1).  Since the
square root of a rational is irrational in general, the embedding tracks the
square of the stored std: `fit_std_sq` is the variance when positive, else 1;
the stored std itself is `Real.sqrt (fit_std_sq c)` in every case (for a
positive variance v it is `sqrt v`; for variance 0 it is 1 = `sqrt 1`; for a
NaN variance it is 1 = `sqrt 1`), which is how the theorems below state
properties of the stored std. -/

/-- Numeric view of a cell (strings never occur in a numeric column). -/
def toQCell : Cell → Option ℚ
  | none => none
  | some (.vInt n) => some (n : ℚ)
  | some (.vRat q) => some q
  | some (.vStr _) => none

/-- Numeric view of a column. -/
def toQCol (c : Col) : List (Option ℚ) := c.map toQCell

/-- `series.dropna()`. -/
def dropna (c : List (Option ℚ)) : List ℚ := c.filterMap id

/-- `series.mean()` (junk value 0 on the empty list, where pandas gives NaN;
no theorem below evaluates the mean of an empty sample). -/
def meanQ (xs : List ℚ) : ℚ := xs.sum / xs.length

/-- `series.std() ** 2` with ddof = 1; `none` models the NaN result on
samples of fewer than two values. -/
def sampleVar? (xs : List ℚ) : Option ℚ :=
  if xs.length ≤ 1 then none
  else some ((xs.map (fun x => (x - meanQ xs) ^ 2)).sum / ((xs.length : ℚ) - 1))

/-- The floor branch applied to the (squared) std:
`series.std() if series.std() > 0 else 1` (std > 0 iff variance > 0;
NaN > 0 is false, so the NaN case also takes the else branch). -/
def stdFloor : Option ℚ → ℚ
  | none => 1
  | some v => if 0 < v then v else 1

/-- Square of the stored std. -/
def fit_std_sq (c : List (Option ℚ)) : ℚ :=
  stdFloor (sampleVar? (dropna c))

/-- The stored mean. -/
def fit_mean (c : List (Option ℚ)) : ℚ := meanQ (dropna c)

/-- C8 (amended): the fitter excludes missing values before computing
statistics (the fitted mean and std depend only on the non-missing values);
when the non-missing sample has zero variance — in particular when all its
values are equal — or fewer than two values, the stored stddev is exactly 1;
but when the sample variance is positive the stddev is passed through
unchanged, so it is NOT floored at 1 and can be below 1. -/
theorem fit_numeric_distributions_spec :
    (∀ c₁ c₂ : List (Option ℚ), dropna c₁ = dropna c₂ →
      fit_mean c₁ = fit_mean c₂ ∧ fit_std_sq c₁ = fit_std_sq c₂) ∧
    (∀ (c : List (Option ℚ)) (x : ℚ), (∀ y ∈ dropna c, y = x) →
      Real.sqrt (fit_std_sq c) = 1) ∧
    (∀ (c : List (Option ℚ)) (v : ℚ), sampleVar? (dropna c) = some v → 0 < v →
      fit_std_sq c = v ∧ Real.sqrt (fit_std_sq c) = Real.sqrt (v : ℝ)) := by
  refine ⟨?_, ?_, ?_⟩
  · intro c₁ c₂ h
    unfold fit_mean fit_std_sq
    rw [h]
    exact ⟨rfl, rfl⟩
  · intro c x hall
    unfold fit_std_sq
    cases hs : sampleVar? (dropna c) with
    | none => simp [stdFloor]
    | some v =>
        have hv0 : v = 0 := by
          rw [sampleVar?] at hs
          split at hs
          · simp at hs
          · next hlen =>
              have hne : dropna c ≠ [] := by
                intro h0
                rw [h0] at hlen
                simp at hlen
              have hmean : meanQ (dropna c) = x := by
                rw [meanQ, List.sum_eq_card_nsmul (dropna c) x hall, nsmul_eq_mul]
                have hl : ((dropna c).length : ℚ) ≠ 0 := by
                  simpa using (List.length_pos.mpr hne).ne'
                field_simp
              have hzero :
                  ((dropna c).map (fun y => (y - meanQ (dropna c)) ^ 2)).sum = 0 := by
                apply List.sum_eq_zero
                intro z hz
                simp only [List.mem_map] at hz
                obtain ⟨y, hy, rfl⟩ := hz
                rw [hmean, hall y hy]
                ring
              rw [hzero] at hs
              simp only [zero_div, Option.some.injEq] at hs
              exact hs.symm
        rw [hv0]
        simp [stdFloor]
  · intro c v hv hpos
    have heq : fit_std_sq c = v := by
      unfold fit_std_sq
      rw [hv]
      simp [stdFloor, hpos]
    exact ⟨heq, by rw [heq]⟩

/-- Witness for C8's amended claim: dropping a missing cell does not change
the fitted mean, and a constant sample yields a stored stddev of exactly 1. -/
theorem fit_numeric_distributions_spec_witness :
    fit_mean [none, some 3] = fit_mean [some 3] ∧
    Real.sqrt (fit_std_sq [some 2, some 2]) = 1 := by
  obtain ⟨ha, hb, _⟩ := fit_numeric_distributions_spec
  exact ⟨(ha [none, some 3] [some 3] rfl).1,
    hb [some 2, some 2] 2 (by simp [dropna])⟩

/-- C8 counterexample: for the sample `[0, 1]` the sample variance is 1/2, so
the stored stddev is `sqrt (1/2) ≈ 0.707 < 1` — the fitter does NOT floor the
stddev at 1. -/
theorem fit_std_below_one_cex :
    fit_std_sq [some 0, some 1] = 1 / 2 ∧
    Real.sqrt (fit_std_sq [some 0, some 1]) < 1 := by
  have hd : dropna [some 0, some 1] = [(0 : ℚ), 1] := rfl
  have hv : sampleVar? (dropna [some 0, some 1]) = some (1 / 2) := by
    rw [hd]
    norm_num [sampleVar?, meanQ]
  have h : fit_std_sq [some 0, some 1] = 1 / 2 := by
    unfold fit_std_sq
    rw [hv]
    norm_num [stdFloor]
  refine ⟨h, ?_⟩
  rw [h]
  have h2 : (((1 : ℚ) / 2 : ℚ) : ℝ) = (1 / 2 : ℝ) := by push_cast; ring
  rw [h2]
  calc Real.sqrt (1 / 2) < Real.sqrt 1 :=
        Real.sqrt_lt_sqrt (by norm_num) (by norm_num)
    _ = 1 := Real.sqrt_one

/-! ## Column generators and schema-driven generation (source lines 46-67,
88-97 and 172-205 / 380-413)

Randomness model: each random primitive of the source draws one value per
generated row; the embedding passes the primitive's distribution parameters
to an opaque provider stream, indexed by the row number.  `np.round` /
`round` round half to even in Python; the embedding uses Mathlib's `round`
(half away from zero) — no claim depends on the tie behaviour of a random
draw.  `fake.*` calls are opaque provider streams. -/

/-- External randomness / faker provider for generation mode. -/
structure GenProvider where
  randInt : ℕ → ℤ → ℤ → ℤ
  randFloat : ℕ → ℚ → ℚ → ℚ
  choiceIdx : ℕ → ℕ
  randChar : ℕ → ℕ → Char
  fakeName : ℕ → String
  fakeCity : ℕ → String
  fakePhone : ℕ → String
  fakeEmail : ℕ → String
  dateStr : ℕ → String → String → String

/-- Rounding to two decimal places (`np.random.uniform(...).round(2)`). -/
def round2 (q : ℚ) : ℚ := (round (q * 100) : ℤ) / 100

/-- `generate_int_column(min_val, max_val, n)`: n draws of
`np.random.randint(min_val, max_val + 1)`. -/
def generate_int_column (mn mx : ℤ) (n : ℕ) (P : GenProvider) : List Value :=
  (List.range n).map (fun i => .vInt (P.randInt i mn mx))

/-- `generate_float_column(min_val, max_val, n)`: n uniform draws rounded to
two decimals. -/
def generate_float_column (mn mx : ℚ) (n : ℕ) (P : GenProvider) : List Value :=
  (List.range n).map (fun i => .vRat (round2 (P.randFloat i mn mx)))

/-- `generate_category_column(categories, n)`: n draws from the label list
(`np.random.choice` raises on an empty list; the embedding returns a junk
label there, a case no claim exercises). -/
def generate_category_column (cats : List String) (n : ℕ) (P : GenProvider) : List Value :=
  (List.range n).map (fun i => .vStr (cats.getD (P.choiceIdx i % max 1 cats.length) ""))

/-- `generate_string_column(str_len, n)`: n random alphanumeric strings of
the given length. -/
def generate_string_column (strLen n : ℕ) (P : GenProvider) : List Value :=
  (List.range n).map (fun i => .vStr (String.mk ((List.range strLen).map (P.randChar i))))

/-- `generate_realistic_name(n)`. -/
def generate_realistic_name (n : ℕ) (P : GenProvider) : List Value :=
  (List.range n).map (fun i => .vStr (P.fakeName i))

/-- `generate_realistic_city(n)`. -/
def generate_realistic_city (n : ℕ) (P : GenProvider) : List Value :=
  (List.range n).map (fun i => .vStr (P.fakeCity i))

/-- `generate_realistic_phone(n)`. -/
def generate_realistic_phone (n : ℕ) (P : GenProvider) : List Value :=
  (List.range n).map (fun i => .vStr (P.fakePhone i))

/-- `generate_date_column(start, end, n)`: n random dates in the range; the
date arithmetic (strptime / timedelta / strftime) is folded into the opaque
provider stream since no claim concerns the value of a random date. -/
def generate_date_column (startD endD : String) (n : ℕ) (P : GenProvider) : List Value :=
  (List.range n).map (fun i => .vStr (P.dateStr i startD endD))

/-- A parsed / user-built column description (the `col_info` dict of the
source, with `none` for absent keys).  `type` is kept as the raw string the
source stores. -/
structure ColInfo where
  name : String
  type : String
  min? : Option ℚ := none
  max? : Option ℚ := none
  categories? : Option (List String) := none
  length? : Option ℕ := none
  startDate? : Option String := none
  endDate? : Option String := none
deriving DecidableEq, Repr

/-- `sub` occurs inside `hay` (Python's `sub in hay`). -/
def containsSub (hay sub : String) : Bool := decide (sub.toList <:+: hay.toList)

/-- Truncation toward zero (Python `int(float)`). -/
def qtrunc (q : ℚ) : ℤ := if q < 0 then ⌈q⌉ else ⌊q⌋

/-- One iteration of the first generation loop of `generate_from_schema`
(source lines 174-194): which values the column receives, `none` when the
loop adds nothing for this column (string-typed email columns, deferred to
the second pass; or a type the if/elif chain does not know). -/
def genColumnSchema (col : ColInfo) (n : ℕ) (P : GenProvider) : Option (List Value) :=
  let cname := lowerStr col.name
  if cname = "pid" then some ((generate_pid_column n ∅).map .vInt)
  else if col.type = "int" then
    some (generate_int_column (qtrunc (col.min?.getD 0)) (qtrunc (col.max?.getD 0)) n P)
  else if col.type = "float" then
    some (generate_float_column (col.min?.getD 0) (col.max?.getD 0) n P)
  else if col.type = "category" then
    some (generate_category_column (col.categories?.getD []) n P)
  else if col.type = "string" then
    if containsSub cname "name" then some (generate_realistic_name n P)
    else if containsSub cname "city" then some (generate_realistic_city n P)
    else if containsSub cname "phone" ∨ containsSub cname "mobile" then
      some (generate_realistic_phone n P)
    else if containsSub cname "email" then none
    else some (generate_string_column (col.length?.getD 0) n P)
  else none

/-- One iteration of the generation loop of `parse_prompt_and_generate`
(source lines 381-404): same dispatch, plus the date type, and random
strings of fixed length 8. -/
def genColumnPrompt (col : ColInfo) (n : ℕ) (P : GenProvider) : Option (List Value) :=
  let cname := lowerStr col.name
  if cname = "pid" then some ((generate_pid_column n ∅).map .vInt)
  else if col.type = "int" then
    some (generate_int_column (qtrunc (col.min?.getD 0)) (qtrunc (col.max?.getD 0)) n P)
  else if col.type = "float" then
    some (generate_float_column (col.min?.getD 0) (col.max?.getD 0) n P)
  else if col.type = "category" then
    some (generate_category_column (col.categories?.getD []) n P)
  else if col.type = "date" then
    some (generate_date_column (col.startDate?.getD "") (col.endDate?.getD "") n P)
  else if col.type = "string" then
    if containsSub cname "name" then some (generate_realistic_name n P)
    else if containsSub cname "city" then some (generate_realistic_city n P)
    else if containsSub cname "phone" ∨ containsSub cname "mobile" then
      some (generate_realistic_phone n P)
    else if containsSub cname "email" then none
    else some (generate_string_column 8 n P)
  else none

/-- Python dict assignment `data[k] = v`: overwrite in place if the key
exists, else append (insertion order preserved). -/
def dictInsert (d : List (String × List Value)) (k : String) (v : List Value) :
    List (String × List Value) :=
  if d.any (fun p => p.1 = k) then d.map (fun p => if p.1 = k then (k, v) else p)
  else d ++ [(k, v)]

/-- Dict lookup `k in data` / `data[k]`. -/
def dictLookup (d : List (String × List Value)) (k : String) : Option (List Value) :=
  (d.find? (fun p => p.1 = k)).map Prod.snd

/-- The first generation pass: the loop over the schema filling the data
dict. -/
def genFirstPass (schema : List ColInfo) (n : ℕ) (P : GenProvider) :
    List (String × List Value) :=
  schema.foldl
    (fun d col =>
      match genColumnSchema col n P with
      | some vals => dictInsert d col.name vals
      | none => d)
    []

/-- The email second pass shared by both modes (source lines 196-203 /
406-413): find the first name-bearing and the first email-bearing column of
the schema; derive emails from the name column when it exists and received
data, else generate independent fake emails.  `generate_email_from_names`
calls `.lower()` on each value, which raises on non-string values — hence
the `Except`. -/
def emailSecondPass (schema : List ColInfo) (n : ℕ) (P : GenProvider)
    (d : List (String × List Value)) : Except String (List (String × List Value)) :=
  match (schema.find? (fun c => containsSub (lowerStr c.name) "email")).map ColInfo.name with
  | none => .ok d
  | some emailCol =>
      match (schema.find? (fun c => containsSub (lowerStr c.name) "name")).map ColInfo.name with
      | some nameCol =>
          match dictLookup d nameCol with
          | some nvals => do
              let strs ← nvals.mapM (fun v =>
                match v with
                | .vStr s => Except.ok s
                | _ => Except.error "AttributeError: object has no attribute lower")
              pure (dictInsert d emailCol ((generate_email_from_names strs).map .vStr))
          | none =>
              .ok (dictInsert d emailCol ((List.range n).map (fun i => .vStr (P.fakeEmail i))))
      | none =>
          .ok (dictInsert d emailCol ((List.range n).map (fun i => .vStr (P.fakeEmail i))))

/-- `generate_from_schema` minus the interactive input and the CSV output:
schema in, assembled dataframe out. -/
def build_data_schema (schema : List ColInfo) (n : ℕ) (P : GenProvider) :
    Except String (List (String × List Value)) :=
  emailSecondPass schema n P (genFirstPass schema n P)

/-- A deterministic provider used to evaluate the model on concrete inputs. -/
def trivGP : GenProvider where
  randInt := fun _ _ _ => 0
  randFloat := fun _ _ _ => 0
  choiceIdx := fun _ => 0
  randChar := fun _ _ => 'a'
  fakeName := fun _ => "Nm"
  fakeCity := fun _ => "Ct"
  fakePhone := fun _ => "Ph"
  fakeEmail := fun _ => "f@x.com"
  dateStr := fun _ _ _ => "2020-01-01"

/-- C2 (amended): a column named `pid` (case-insensitively) is treated as an
Identifier column — its values come from `generate_pid_column` — regardless
of its declared type, in both schema mode and prompt mode; but a column
named `id` is NOT special-cased: an `id` column of type int is generated by
the plain integer generator. -/
theorem pid_column_is_identifier (col : ColInfo) (n : ℕ) (P : GenProvider)
    (h : lowerStr col.name = "pid") :
    genColumnSchema col n P = some ((generate_pid_column n ∅).map Value.vInt) ∧
    genColumnPrompt col n P = some ((generate_pid_column n ∅).map Value.vInt) ∧
    (∀ col2 : ColInfo, lowerStr col2.name = "id" → col2.type = "int" →
      genColumnSchema col2 n P
        = some (generate_int_column (qtrunc (col2.min?.getD 0))
            (qtrunc (col2.max?.getD 0)) n P)) := by
  refine ⟨by simp [genColumnSchema, h], by simp [genColumnPrompt, h], ?_⟩
  intro col2 h2 ht
  have : ¬ (lowerStr col2.name = "pid") := by rw [h2]; decide
  simp [genColumnSchema, this, ht]

/-- Witness for C2's amended claim: a float-typed column named "PID" is
generated by the identifier allocator in schema mode. -/
theorem pid_column_is_identifier_witness :
    genColumnSchema { name := "PID", type := "float" } 3 trivGP
      = some ((generate_pid_column 3 ∅).map Value.vInt) :=
  (pid_column_is_identifier { name := "PID", type := "float" } 3 trivGP (by decide)).1

/-- C2 counterexample: an int-typed column named "id" is generated by the
integer generator (here: the value 0 drawn by the provider), not by the
identifier allocator (which would yield 10000) — so `id` is not treated as
an Identifier column. -/
theorem id_column_not_identifier_cex :
    genColumnSchema { name := "id", type := "int", min? := some 0, max? := some 5 } 1 trivGP
      = some [Value.vInt 0] ∧
    (generate_pid_column 1 ∅).map Value.vInt = [Value.vInt 10000] ∧
    genColumnSchema { name := "id", type := "int", min? := some 0, max? := some 5 } 1 trivGP
      ≠ some ((generate_pid_column 1 ∅).map Value.vInt) := by
  refine ⟨rfl, rfl, ?_⟩
  decide

/-- Length of the allocator output. -/
theorem generate_pid_column_length (n : ℕ) (existing : Finset ℤ) :
    (generate_pid_column n existing).length = n := by
  rw [generate_pid_column_eq_range]
  simp

/-- Every interactive-mode column type produces a full column of n values in
the first pass, provided the column name does not contain "email". -/
theorem genColumnSchema_some_of (col : ColInfo) (n : ℕ) (P : GenProvider)
    (ht : col.type = "int" ∨ col.type = "float" ∨ col.type = "category" ∨
      col.type = "string")
    (he : containsSub (lowerStr col.name) "email" = false) :
    ∃ vals, genColumnSchema col n P = some vals ∧ vals.length = n := by
  simp only [genColumnSchema]
  split_ifs with h1 h2 h3 h4 h5 h6 h7 h8 h9
  · exact ⟨_, rfl, by simp [generate_pid_column_length]⟩
  · exact ⟨_, rfl, by simp [generate_int_column]⟩
  · exact ⟨_, rfl, by simp [generate_float_column]⟩
  · exact ⟨_, rfl, by simp [generate_category_column]⟩
  · exact ⟨_, rfl, by simp [generate_realistic_name]⟩
  · exact ⟨_, rfl, by simp [generate_realistic_city]⟩
  · exact ⟨_, rfl, by simp [generate_realistic_phone]⟩
  · rw [h9] at he; cases he
  · exact ⟨_, rfl, by simp [generate_string_column]⟩
  · rcases ht with h | h | h | h <;> tauto

/-- The first generation pass, with an explicit accumulator: it appends one
entry per schema column, in schema order, each of length n. -/
theorem genFirstPass_go (n : ℕ) (P : GenProvider) :
    ∀ (schema : List ColInfo) (d : List (String × List Value)),
      (∀ c ∈ schema, ∀ p ∈ d, ¬ (p.1 = c.name)) →
      (schema.map ColInfo.name).Nodup →
      (∀ c ∈ schema, c.type = "int" ∨ c.type = "float" ∨ c.type = "category" ∨
        c.type = "string") →
      (∀ c ∈ schema, containsSub (lowerStr c.name) "email" = false) →
      (schema.foldl
          (fun d col =>
            match genColumnSchema col n P with
            | some vals => dictInsert d col.name vals
            | none => d)
          d).map Prod.fst = d.map Prod.fst ++ schema.map ColInfo.name ∧
      ∀ p ∈ schema.foldl
          (fun d col =>
            match genColumnSchema col n P with
            | some vals => dictInsert d col.name vals
            | none => d)
          d, p ∈ d ∨ p.2.length = n := by
  intro schema
  induction schema with
  | nil =>
      intro d _ _ _ _
      exact ⟨by simp, fun p hp => Or.inl hp⟩
  | cons col rest ih =>
      intro d hfresh hnodup ht he
      obtain ⟨vals, hsome, hlen⟩ :=
        genColumnSchema_some_of col n P (ht col (by simp)) (he col (by simp))
      have hnotin : ¬ d.any (fun p => p.1 = col.name) := by
        rw [List.any_eq_true]
        rintro ⟨p, hp, hpeq⟩
        exact hfresh col (by simp) p hp (by simpa using hpeq)
      have hstep :
          (match genColumnSchema col n P with
            | some vals => dictInsert d col.name vals
            | none => d) = d ++ [(col.name, vals)] := by
        rw [hsome]
        simp only [dictInsert]
        rw [if_neg hnotin]
      have hfresh' : ∀ c ∈ rest, ∀ p ∈ d ++ [(col.name, vals)], ¬ (p.1 = c.name) := by
        intro c hc p hp
        rcases List.mem_append.mp hp with h | h
        · exact hfresh c (by simp [hc]) p h
        · simp only [List.mem_singleton] at h
          subst h
          simp only []
          intro hcontra
          have : col.name ∈ rest.map ColInfo.name := by
            rw [hcontra]; exact List.mem_map_of_mem _ hc
          simp only [List.map_cons, List.nodup_cons] at hnodup
          exact hnodup.1 this
      have ih' := ih (d ++ [(col.name, vals)]) hfresh'
        (by simp only [List.map_cons, List.nodup_cons] at hnodup; exact hnodup.2)
        (fun c hc => ht c (by simp [hc]))
        (fun c hc => he c (by simp [hc]))
      rw [List.foldl_cons, hstep]
      constructor
      · rw [ih'.1]
        simp
      · intro p hp
        rcases ih'.2 p hp with h | h
        · rcases List.mem_append.mp h with h | h
          · exact Or.inl h
          · simp only [List.mem_singleton] at h
            subst h
            exact Or.inr hlen
        · exact Or.inr h

/-- C4 (amended): for every valid schema NONE of whose column names contains
"email" (types among int/float/category/string, case-insensitively distinct
names) and every n > 0, generation succeeds and returns a dataset in which
every column has exactly n values and the column-name order equals the
schema order.  (When a string-typed email column is present it is instead
emitted after all other columns — see the counterexample.) -/
theorem build_data_schema_shape (schema : List ColInfo) (n : ℕ) (P : GenProvider)
    (hpos : 0 < n)
    (hnodup : (schema.map (fun c => lowerStr c.name)).Nodup)
    (ht : ∀ c ∈ schema, c.type = "int" ∨ c.type = "float" ∨ c.type = "category" ∨
      c.type = "string")
    (he : ∀ c ∈ schema, containsSub (lowerStr c.name) "email" = false) :
    ∃ d, build_data_schema schema n P = .ok d ∧
      d.map Prod.fst = schema.map ColInfo.name ∧
      ∀ p ∈ d, p.2.length = n := by
  have hnames : (schema.map ColInfo.name).Nodup := by
    have : schema.map (fun c => lowerStr c.name)
        = (schema.map ColInfo.name).map lowerStr := by
      rw [List.map_map]
      rfl
    rw [this] at hnodup
    exact hnodup.of_map
  obtain ⟨h1, h2⟩ := genFirstPass_go n P schema [] (by simp) hnames ht he
  have hnoemail : schema.find? (fun c => containsSub (lowerStr c.name) "email") = none := by
    rw [List.find?_eq_none]
    intro c hc
    simp [he c hc]
  refine ⟨genFirstPass schema n P, ?_, ?_, ?_⟩
  · rw [build_data_schema, emailSecondPass, hnoemail]
    rfl
  · rw [genFirstPass, h1]
    simp
  · intro p hp
    rcases h2 p hp with h | h
    · cases h
    · exact h

/-- Witness for C4's amended claim at a concrete two-column schema. -/
theorem build_data_schema_shape_witness :
    ∃ d, build_data_schema
        [{ name := "age", type := "int", min? := some 0, max? := some 5 },
         { name := "city", type := "string", length? := some 4 }] 2 trivGP = .ok d ∧
      d.map Prod.fst = ["age", "city"] ∧
      ∀ p ∈ d, p.2.length = 2 := by
  obtain ⟨d, hd, hnames, hlen⟩ := build_data_schema_shape
    [{ name := "age", type := "int", min? := some 0, max? := some 5 },
     { name := "city", type := "string", length? := some 4 }] 2 trivGP
    (by omega) (by decide) (by decide) (by decide)
  exact ⟨d, hd, hnames, hlen⟩

/-- C4 counterexample: a valid schema listing a string-typed "email" column
first and an int column "age" second produces the columns in the order
`[age, email]` — the email column is deferred to a second pass and appended
at the end of the data dict, so column order does not follow schema order. -/
theorem email_column_breaks_order_cex :
    (build_data_schema
        [{ name := "email", type := "string", length? := some 5 },
         { name := "age", type := "int", min? := some 0, max? := some 5 }] 1 trivGP).toOption.map
      (fun d => d.map Prod.fst) = some ["age", "email"] ∧
    ([{ name := "email", type := "string", length? := some 5 },
      { name := "age", type := "int", min? := some 0, max? := some 5 }].map
        ColInfo.name : List String) = ["email", "age"] ∧
    (["age", "email"] : List String) ≠ ["email", "age"] := by
  refine ⟨rfl, rfl, by decide⟩

/-! ## Augmentation: `augment_dataset` (source lines 210-310)

The interactive per-column strategy prompt of the source asks once per
column and caches the answer in `col_strategies` for the whole run; the
embedding takes the resulting per-column choice as an input mapping
`strats : String → Strat`.  The dataframe read from CSV has homogeneous
columns: numeric columns hold ints/floats/NaN, object columns hold
strings/NaN; `pandas` dtype tests are modelled on the cell contents.
Python crashes (int(NaN), random.choice on an empty list, …) surface as
`Except.error`. -/

/-- Decimal digit test (ASCII). -/
def isDigitCh (c : Char) : Bool := 48 ≤ c.toNat && c.toNat ≤ 57

/-- Value of a digit string (0 on the empty list). -/
def digitsToNat (ds : List Char) : ℕ :=
  ds.foldl (fun a c => 10 * a + (c.toNat - 48)) 0

/-- Python `int(s)` on a string (simplified: optional sign, decimal digits;
underscores and surrounding whitespace are not modelled). -/
def parseIntStr (s : String) : Option ℤ :=
  match s.toList with
  | '-' :: rest =>
      if rest ≠ [] && rest.all isDigitCh then some (-(digitsToNat rest : ℤ)) else none
  | '+' :: rest =>
      if rest ≠ [] && rest.all isDigitCh then some (digitsToNat rest) else none
  | t => if t ≠ [] && t.all isDigitCh then some (digitsToNat t) else none

/-- The per-column augmentation strategy choice ("1" or "2" at the prompt). -/
inductive Strat where
  | s1 : Strat
  | s2 : Strat
deriving DecidableEq, Repr

/-- External randomness / faker provider for augmentation mode.
`normalDraw i c mean var` is the i-th `np.random.normal` draw for column c
(parameterised by mean and the squared std the source computes);
`word` already includes the `.capitalize()` of the source. -/
structure AugProvider where
  normalDraw : ℕ → String → ℚ → ℚ → ℚ
  sampleIdx : ℕ → String → ℕ
  noiseInt : ℕ → String → ℤ
  noiseFloat : ℕ → String → ℚ
  coin : ℕ → String → Bool
  word : ℕ → String → String
  chooseIdx : ℕ → String → ℕ

/-- `pd.unique` of the non-missing values (first-occurrence order). -/
def uniqueF (l : List Value) : List Value :=
  l.foldl (fun acc v => if v ∈ acc then acc else acc ++ [v]) []

/-- Can this cell live in a numeric-dtype column? -/
def isNumericCell : Cell → Bool
  | none => true
  | some (.vInt _) => true
  | some (.vRat _) => true
  | some (.vStr _) => false

/-- `pd.api.types.is_numeric_dtype`. -/
def isNumericCol (c : Col) : Bool := c.all isNumericCell

/-- Is this cell an integer (no NaN: a pandas int column cannot hold NaN)? -/
def isIntCell : Cell → Bool
  | some (.vInt _) => true
  | _ => false

/-- `pd.api.types.is_integer_dtype`. -/
def isIntCol (c : Col) : Bool := c.all isIntCell

/-- One new cell for one column of one new row (the body of the inner loop
of `augment_dataset`, source lines 247-288, after the pid skip).
`random.randint(-2, 2)` is modelled by folding the provider draw into
[-2, 2]. -/
def newCell (m : ℕ) (stats : String → ℚ × ℚ) (strat : Strat) (P : AugProvider)
    (i : ℕ) (cname : String) (cvals : Col) : Except String Cell :=
  if isNumericCol cvals then
    let isInt := lowerStr cname = "age" || isIntCol cvals
    match strat with
    | .s1 =>
        let s := stats cname
        let x := P.normalDraw i cname s.1 s.2
        if isInt then .ok (some (.vInt (round x))) else .ok (some (.vRat x))
    | .s2 =>
        match cvals.getD (P.sampleIdx i cname % max 1 m) none with
        | none =>
            if isInt then .error "cannot convert float NaN to integer"
            else .ok none
        | some (.vInt k) =>
            if isInt then .ok (some (.vInt (k + ((P.noiseInt i cname).emod 5 - 2))))
            else .ok (some (.vRat ((k : ℚ) + P.noiseFloat i cname)))
        | some (.vRat q) =>
            if isInt then .ok (some (.vInt (qtrunc q + ((P.noiseInt i cname).emod 5 - 2))))
            else .ok (some (.vRat (q + P.noiseFloat i cname)))
        | some (.vStr _) => .error "could not convert string to float"
  else
    let existingVals := uniqueF (cvals.filterMap id)
    match strat with
    | .s1 =>
        match existingVals.get? (P.chooseIdx i cname % max 1 existingVals.length) with
        | some v => .ok (some v)
        | none => .error "cannot choose from an empty sequence"
    | .s2 =>
        let w := Value.vStr (P.word i cname)
        let augmented :=
          if P.coin i cname && !(existingVals.contains w) then existingVals ++ [w]
          else existingVals
        let pool :=
          if existingVals.isEmpty then augmented else uniqueF existingVals ++ augmented
        match pool.get? (P.chooseIdx i cname % max 1 pool.length) with
        | some v => .ok (some v)
        | none => .error "a must be non-empty"

/-- The cells one column receives for the n_add new rows.  A pid column is
skipped in the row loop, so concatenation fills it with NaN (overwritten by
the pid fix below). -/
def augColCells (m n_add : ℕ) (stats : String → ℚ × ℚ) (strats : String → Strat)
    (P : AugProvider) (cname : String) (cvals : Col) : Except String Col :=
  if lowerStr cname = "pid" then .ok (List.replicate n_add (none : Cell))
  else (List.range n_add).mapM (fun i => newCell m stats (strats cname) P i cname cvals)

/-- Column names of a dataframe. -/
def colNames (df : Table) : List String := df.map Prod.fst

/-- `df[c]` / `c in df.columns`. -/
def lookupCol (df : Table) (c : String) : Option Col :=
  (df.find? (fun p => p.1 = c)).map Prod.snd

/-- `len(df)` (all columns share the length of the first). -/
def rowCount (df : Table) : ℕ :=
  match df with
  | [] => 0
  | p :: _ => p.2.length

/-- Map a fallible column transformer over a dataframe (first error wins). -/
def tableMapE (f : String → Col → Except String Col) : Table → Except String Table
  | [] => .ok []
  | p :: rest =>
      match f p.1 p.2 with
      | .error e => .error e
      | .ok c2 =>
          match tableMapE f rest with
          | .error e => .error e
          | .ok r => .ok ((p.1, c2) :: r)

/-- `int()` view of a cell for the pid-set extraction. -/
def cellToIntPy : Cell → Option ℤ
  | none => none
  | some (.vInt k) => some k
  | some (.vRat q) => some (qtrunc q)
  | some (.vStr s) => parseIntStr s

/-- `set(df['pid'].dropna().astype(int))`, with the source's
`try/except → set()` fallback when a value cannot be converted. -/
def pidSetOf (c : Col) : Finset ℤ :=
  match (c.filterMap id).mapM (fun v => cellToIntPy (some v)) with
  | some ks => ks.toFinset
  | none => ∅

/-- `numeric_stats[col]`: mean and squared std of a column of df. -/
def statsOf (df : Table) (c : String) : ℚ × ℚ :=
  match lookupCol df c with
  | some cv => (fit_mean (toQCol cv), fit_std_sq (toQCol cv))
  | none => (0, 1)

/-- `df_aug.loc[n_existing:, 'pid'] = new_pids`. -/
def pidFix (t : Table) (m : ℕ) (pids : Col) : Table :=
  t.map (fun p => if p.1 = "pid" then (p.1, p.2.take m ++ pids) else p)

/-- `df_aug[k] = newc` (column exists: replaced in place). -/
def setCol (t : Table) (k : String) (newc : Col) : Table :=
  t.map (fun p => if p.1 = k then (p.1, newc) else p)

/-- `df_aug['name'].fillna('user').astype(str)` applied to one cell (the
repr of a float value differs from Python's `str(float)`; no theorem
depends on it). -/
def cellToStr : Cell → String
  | none => "user"
  | some (.vStr s) => s
  | some (.vInt k) => toString k
  | some (.vRat q) => toString q

/-- The concatenation step: each column gets its original cells followed by
its new-row cells. -/
def augConcatCol (m n_add : ℕ) (stats : String → ℚ × ℚ) (strats : String → Strat)
    (P : AugProvider) (cname : String) (cvals : Col) : Except String Col :=
  match augColCells m n_add stats strats P cname cvals with
  | .error e => .error e
  | .ok newc => .ok (cvals ++ newc)

/-- `email` recomputation pass (source lines 302-306). -/
def emailFix (t : Table) : Table :=
  if (colNames t).contains "email" && (colNames t).contains "name" then
    (lookupCol t "name").elim t (fun ncol =>
      setCol t "email"
        ((generate_email_from_names (ncol.map cellToStr)).map
          (fun e => some (.vStr e))))
  else t

/-- `augment_dataset` minus the interactive input and the CSV round-trip:
dataframe in, augmented dataframe out. -/
def augment_dataset (df : Table) (n_add : ℕ) (strats : String → Strat)
    (P : AugProvider) : Except String Table :=
  match tableMapE (augConcatCol (rowCount df) n_add (statsOf df) strats P) df with
  | .error e => .error e
  | .ok concat =>
      .ok (emailFix
        (if (colNames df).contains "pid" then
          pidFix concat (rowCount df)
            ((generate_pid_column n_add (pidSetOf ((lookupCol df "pid").getD []))).map
              (fun k => some (.vInt k)))
        else concat))

/-- A successful `tableMapE` preserves the column names. -/
theorem tableMapE_ok_names (f : String → Col → Except String Col) :
    ∀ (t r : Table), tableMapE f t = .ok r → r.map Prod.fst = t.map Prod.fst := by
  intro t
  induction t with
  | nil =>
      intro r h
      simp only [tableMapE, Except.ok.injEq] at h
      rw [← h]
  | cons p rest ih =>
      intro r h
      simp only [tableMapE] at h
      cases hf : f p.1 p.2 with
      | error e => rw [hf] at h; cases h
      | ok c2 =>
          rw [hf] at h
          cases hr : tableMapE f rest with
          | error e => rw [hr] at h; cases h
          | ok r2 =>
              rw [hr] at h
              simp only [Except.ok.injEq] at h
              rw [← h]
              simp only [List.map_cons]
              rw [ih r2 hr]

/-- A successful `tableMapE` maps each entry of a duplicate-free dataframe
to the (successful) transform of its column, found at the same name. -/
theorem tableMapE_ok_lookup (f : String → Col → Except String Col) :
    ∀ (t r : Table), tableMapE f t = .ok r → (t.map Prod.fst).Nodup →
      ∀ cname cvals, (cname, cvals) ∈ t →
        ∃ c2, f cname cvals = .ok c2 ∧ lookupCol r cname = some c2 := by
  intro t
  induction t with
  | nil => intro r _ _ cname cvals hmem; cases hmem
  | cons p rest ih =>
      intro r h hnodup cname cvals hmem
      simp only [tableMapE] at h
      cases hf : f p.1 p.2 with
      | error e => rw [hf] at h; cases h
      | ok c2 =>
          rw [hf] at h
          cases hr : tableMapE f rest with
          | error e => rw [hr] at h; cases h
          | ok r2 =>
              rw [hr] at h
              simp only [Except.ok.injEq] at h
              subst h
              rcases List.mem_cons.mp hmem with heq | hmem'
              · subst heq
                exact ⟨c2, hf, by simp [lookupCol, List.find?]⟩
              · have hne : ¬ (p.1 = cname) := by
                  intro hcontra
                  simp only [List.map_cons, List.nodup_cons] at hnodup
                  apply hnodup.1
                  rw [hcontra]
                  exact List.mem_map_of_mem Prod.fst hmem'
                obtain ⟨c2', hfc, hlc⟩ := ih r2 hr
                  (by simp only [List.map_cons, List.nodup_cons] at hnodup; exact hnodup.2)
                  cname cvals hmem'
                refine ⟨c2', hfc, ?_⟩
                simp only [lookupCol, List.find?]
                rw [show (decide (p.1 = cname)) = false from by simpa using hne]
                exact hlc

/-- Lookup of a column that a name-preserving pointwise rewrite does not
touch. -/
theorem lookupCol_map_untouched (f : String × Col → String × Col)
    (hf : ∀ p, (f p).1 = p.1) (c : String) (hc : ∀ p, p.1 = c → f p = p) :
    ∀ t : Table, lookupCol (t.map f) c = lookupCol t c := by
  intro t
  induction t with
  | nil => rfl
  | cons p rest ih =>
      simp only [List.map_cons, lookupCol, List.find?]
      by_cases hp : p.1 = c
      · rw [show (decide ((f p).1 = c)) = true from by simp [hf p, hp],
          show (decide (p.1 = c)) = true from by simp [hp]]
        simp [hc p hp]
      · rw [show (decide ((f p).1 = c)) = false from by simp [hf p, hp],
          show (decide (p.1 = c)) = false from by simp [hp]]
        exact ih

/-- Lookup of the column a `setCol` rewrites (present in the dataframe). -/
theorem lookupCol_setCol_self (k : String) (v : Col) :
    ∀ t : Table, (∃ cv, lookupCol t k = some cv) →
      lookupCol (setCol t k v) k = some v := by
  intro t
  induction t with
  | nil => rintro ⟨cv, hcv⟩; cases hcv
  | cons p rest ih =>
      rintro ⟨cv, hcv⟩
      simp only [setCol, List.map_cons, lookupCol, List.find?]
      by_cases hp : p.1 = k
      · simp [hp]
      · rw [show (decide ((if p.1 = k then (p.1, v) else p).1 = k)) = false from by
          simp [hp]]
        apply ih
        simp only [lookupCol, List.find?] at hcv
        rw [show (decide (p.1 = k)) = false from by simp [hp]] at hcv
        exact ⟨cv, hcv⟩

/-- A name is in `colNames` iff lookup succeeds. -/
theorem lookupCol_isSome_of_contains (c : String) :
    ∀ t : Table, (colNames t).contains c = true → ∃ cv, lookupCol t c = some cv := by
  intro t
  induction t with
  | nil => intro h; cases h
  | cons p rest ih =>
      intro h
      simp only [lookupCol, List.find?]
      by_cases hp : p.1 = c
      · rw [show (decide (p.1 = c)) = true from by simp [hp]]
        exact ⟨p.2, rfl⟩
      · rw [show (decide (p.1 = c)) = false from by simp [hp]]
        apply ih
        simp only [colNames, List.map_cons, List.contains_cons, Bool.or_eq_true,
          beq_iff_eq] at h
        rcases h with h | h
        · exact absurd h.symm hp
        · simpa [colNames] using h

/-- `pidFix` and `setCol` preserve column names. -/
theorem colNames_map_fst_preserving (f : String × Col → String × Col)
    (hf : ∀ p, (f p).1 = p.1) (t : Table) :
    colNames (t.map f) = colNames t := by
  simp only [colNames, List.map_map]
  apply List.map_congr_left
  intro p _
  exact hf p

/-- `pidFix` preserves column names. -/
theorem colNames_pidFix (t : Table) (m : ℕ) (pids : Col) :
    colNames (pidFix t m pids) = colNames t :=
  colNames_map_fst_preserving _ (by intro p; split <;> rfl) t

/-- `pidFix` does not affect lookups of non-pid columns. -/
theorem lookupCol_pidFix_ne (t : Table) (m : ℕ) (pids : Col) (c : String)
    (hc : c ≠ "pid") :
    lookupCol (pidFix t m pids) c = lookupCol t c := by
  apply lookupCol_map_untouched
  · intro p; split <;> rfl
  · intro p hp
    have : ¬ (p.1 = "pid") := by rw [hp]; exact hc
    rw [if_neg this]

/-- `setCol k` does not affect lookups of other columns. -/
theorem lookupCol_setCol_ne (t : Table) (k : String) (v : Col) (c : String)
    (hc : c ≠ k) :
    lookupCol (setCol t k v) c = lookupCol t c := by
  apply lookupCol_map_untouched
  · intro p; split <;> rfl
  · intro p hp
    have : ¬ (p.1 = k) := by rw [hp]; exact hc
    rw [if_neg this]

/-- `emailFix` does not affect lookups of non-email columns. -/
theorem lookupCol_emailFix_ne (t : Table) (c : String) (hc : c ≠ "email") :
    lookupCol (emailFix t) c = lookupCol t c := by
  unfold emailFix
  split
  · cases hl : lookupCol t "name" with
    | none => simp [Option.elim]
    | some ncol =>
        simp only [Option.elim]
        exact lookupCol_setCol_ne t "email" _ c hc
  · rfl

/-- C6: for every dataframe with duplicate-free column names, every n_add
and strategy choice, every column other than the identifier columns
(`pid`/`id`) and the email column is preserved verbatim on the original
rows: the first `len(D)` cells of the augmented column equal the original
column.  (In fact the original rows of pid/id columns are also preserved;
the claim's exceptions are permissions, and only email is actually
rewritten on original rows.) -/
theorem augment_preserves_other_columns (df : Table) (n_add : ℕ)
    (strats : String → Strat) (P : AugProvider) (A : Table)
    (hA : augment_dataset df n_add strats P = .ok A)
    (hnodup : (colNames df).Nodup)
    (cname : String) (cvals : Col) (hmem : (cname, cvals) ∈ df)
    (h1 : cname ≠ "pid") (h2 : cname ≠ "id") (h3 : cname ≠ "email") :
    ∃ w, lookupCol A cname = some w ∧ w.take cvals.length = cvals := by
  unfold augment_dataset at hA
  cases hc : tableMapE (augConcatCol (rowCount df) n_add (statsOf df) strats P) df with
  | error e => rw [hc] at hA; cases hA
  | ok C =>
      rw [hc] at hA
      simp only [Except.ok.injEq] at hA
      subst hA
      obtain ⟨c2, hf, hl⟩ := tableMapE_ok_lookup _ df C hc hnodup cname cvals hmem
      unfold augConcatCol at hf
      cases hn : augColCells (rowCount df) n_add (statsOf df) strats P cname cvals with
      | error e => rw [hn] at hf; cases hf
      | ok newc =>
          rw [hn] at hf
          simp only [Except.ok.injEq] at hf
          subst hf
          rw [lookupCol_emailFix_ne _ _ h3]
          by_cases hpid : (colNames df).contains "pid"
          · rw [if_pos hpid, lookupCol_pidFix_ne _ _ _ _ h1, hl]
            exact ⟨_, rfl, List.take_left cvals newc⟩
          · rw [if_neg hpid, hl]
            exact ⟨_, rfl, List.take_left cvals newc⟩

/-- When both an email and a name column exist, `emailFix` leaves the name
column alone and rewrites the entire email column to the derived email of
each (stringified) name cell. -/
theorem emailFix_lookup (t : Table)
    (hE : (colNames t).contains "email" = true)
    (hN : (colNames t).contains "name" = true)
    (ncol : Col) (hn : lookupCol t "name" = some ncol) :
    lookupCol (emailFix t) "name" = some ncol ∧
    lookupCol (emailFix t) "email"
      = some (ncol.map (fun cell => some (.vStr (emailOf (cellToStr cell))))) := by
  unfold emailFix
  split
  case isFalse h => rw [hE, hN] at h; exact absurd rfl h
  case isTrue h =>
    rw [hn]
    simp only [Option.elim]
    constructor
    · rw [lookupCol_setCol_ne t "email" _ "name" (by decide)]
      exact hn
    · rw [lookupCol_setCol_self "email" _ t (lookupCol_isSome_of_contains "email" t hE)]
      simp [generate_email_from_names, List.map_map, Function.comp]

/-- Skeleton fact shared by the email-consistency claims: a successful
augmentation of a dataframe that has both a `name` and an `email` column
yields a dataframe whose email column is the cell-wise derived email of its
name column. -/
theorem augment_email_column (df : Table) (n_add : ℕ) (strats : String → Strat)
    (P : AugProvider) (A : Table)
    (hA : augment_dataset df n_add strats P = .ok A)
    (hE : (colNames df).contains "email" = true)
    (hN : (colNames df).contains "name" = true) :
    ∃ ncol, lookupCol A "name" = some ncol ∧
      lookupCol A "email"
        = some (ncol.map (fun cell => some (.vStr (emailOf (cellToStr cell))))) := by
  unfold augment_dataset at hA
  cases hc : tableMapE (augConcatCol (rowCount df) n_add (statsOf df) strats P) df with
  | error e => rw [hc] at hA; cases hA
  | ok C =>
      rw [hc] at hA
      simp only [Except.ok.injEq] at hA
      subst hA
      have hCn : colNames C = colNames df := tableMapE_ok_names _ df C hc
      have hWn : colNames
          (if (colNames df).contains "pid" then
            pidFix C (rowCount df)
              ((generate_pid_column n_add (pidSetOf ((lookupCol df "pid").getD []))).map
                (fun k => some (.vInt k)))
          else C) = colNames df := by
        split
        · rw [colNames_pidFix, hCn]
        · exact hCn
      set W := (if (colNames df).contains "pid" then
          pidFix C (rowCount df)
            ((generate_pid_column n_add (pidSetOf ((lookupCol df "pid").getD []))).map
              (fun k => some (.vInt k)))
        else C) with hWdef
      have hWE : (colNames W).contains "email" = true := by rw [hWn]; exact hE
      have hWN : (colNames W).contains "name" = true := by rw [hWn]; exact hN
      obtain ⟨ncol, hncol⟩ := lookupCol_isSome_of_contains "name" W hWN
      obtain ⟨hkeep, hemail⟩ := emailFix_lookup W hWE hWN ncol hncol
      exact ⟨ncol, hkeep, hemail⟩

/-- C7: after a successful augmentation of a dataframe (duplicate-free
column names) containing both a `name` and an `email` column, every row's
email cell — original rows and newly generated rows alike — equals the
derived email of that row's name cell; in particular, for every row whose
name cell holds the string s, the email cell holds `emailOf s`: the entire
email column is recomputed from the entire name column. -/
theorem augment_email_consistency (df : Table) (n_add : ℕ)
    (strats : String → Strat) (P : AugProvider) (A : Table)
    (hA : augment_dataset df n_add strats P = .ok A)
    (hE : (colNames df).contains "email" = true)
    (hN : (colNames df).contains "name" = true) :
    ∃ ncol ecol, lookupCol A "name" = some ncol ∧
      lookupCol A "email" = some ecol ∧
      ecol = ncol.map (fun cell => some (.vStr (emailOf (cellToStr cell)))) ∧
      ∀ (i : ℕ) (s : String), ncol[i]? = some (some (.vStr s)) →
        ecol[i]? = some (some (.vStr (emailOf s))) := by
  obtain ⟨ncol, hname, hemail⟩ := augment_email_column df n_add strats P A hA hE hN
  refine ⟨ncol, _, hname, hemail, rfl, ?_⟩
  intro i s hi
  rw [List.getElem?_map, hi]
  rfl

/-- C9: during augmentation of a dataframe with both `name` and `email`
columns, every row (original or new) whose name cell is missing gets the
recomputed email "user@example.com": the missing name is replaced by the
literal string "user" before email derivation. -/
theorem augment_missing_name_user_email (df : Table) (n_add : ℕ)
    (strats : String → Strat) (P : AugProvider) (A : Table)
    (hA : augment_dataset df n_add strats P = .ok A)
    (hE : (colNames df).contains "email" = true)
    (hN : (colNames df).contains "name" = true) :
    ∃ ncol ecol, lookupCol A "name" = some ncol ∧
      lookupCol A "email" = some ecol ∧
      ∀ i : ℕ, ncol[i]? = some none →
        ecol[i]? = some (some (.vStr "user@example.com")) := by
  obtain ⟨ncol, hname, hemail⟩ := augment_email_column df n_add strats P A hA hE hN
  refine ⟨ncol, _, hname, hemail, ?_⟩
  intro i hi
  rw [List.getElem?_map, hi]
  have : emailOf (cellToStr none) = "user@example.com" := by decide
  simp [this]

/-- A deterministic augmentation provider used to evaluate the model on
concrete inputs. -/
def trivAP : AugProvider where
  normalDraw := fun _ _ mu _ => mu
  sampleIdx := fun _ _ => 0
  noiseInt := fun _ _ => 0
  noiseFloat := fun _ _ => 0
  coin := fun _ _ => false
  word := fun _ _ => "Word"
  chooseIdx := fun _ _ => 0

/-- Concrete dataframe for the C6 witness. -/
def dfC6 : Table := [("age", [some (Value.vInt 30)]), ("city", [some (Value.vStr "Pune")])]

/-- Witness for C6: augmenting a 1-row age/city dataframe by one row keeps
the original row of the "city"-unrelated column "age" intact. -/
theorem augment_preserves_other_columns_witness :
    ∃ w, lookupCol
        [("age", [some (Value.vInt 30), some (Value.vInt 28)]),
         ("city", [some (Value.vStr "Pune"), some (Value.vStr "Pune")])] "age" = some w ∧
      w.take 1 = [some (Value.vInt 30)] := by
  have hA : augment_dataset dfC6 1 (fun _ => Strat.s2) trivAP
      = .ok [("age", [some (Value.vInt 30), some (Value.vInt 28)]),
             ("city", [some (Value.vStr "Pune"), some (Value.vStr "Pune")])] := by rfl
  exact augment_preserves_other_columns dfC6 1 (fun _ => Strat.s2) trivAP _ hA
    (by decide) "age" [some (Value.vInt 30)] (by decide) (by decide) (by decide) (by decide)

/-- Concrete dataframe for the C7 witness. -/
def dfC7 : Table := [("name", [some (Value.vStr "Jo")]), ("email", [some (Value.vStr "z")])]

/-- Witness for C7: after augmentation, the row whose name is "Jo" carries
the derived email "jo@example.com". -/
theorem augment_email_consistency_witness :
    ∃ ncol ecol,
      lookupCol
        [("name", [some (Value.vStr "Jo"), some (Value.vStr "Jo")]),
         ("email", [some (Value.vStr "jo@example.com"), some (Value.vStr "jo@example.com")])]
        "name" = some ncol ∧
      lookupCol
        [("name", [some (Value.vStr "Jo"), some (Value.vStr "Jo")]),
         ("email", [some (Value.vStr "jo@example.com"), some (Value.vStr "jo@example.com")])]
        "email" = some ecol ∧
      ecol[0]? = some (some (Value.vStr (emailOf "Jo"))) := by
  have hA : augment_dataset dfC7 1 (fun _ => Strat.s2) trivAP
      = .ok [("name", [some (Value.vStr "Jo"), some (Value.vStr "Jo")]),
             ("email", [some (Value.vStr "jo@example.com"),
               some (Value.vStr "jo@example.com")])] := by rfl
  obtain ⟨ncol, ecol, hn, he, _, hpt⟩ :=
    augment_email_consistency dfC7 1 (fun _ => Strat.s2) trivAP _ hA (by decide) (by decide)
  refine ⟨ncol, ecol, hn, he, ?_⟩
  apply hpt 0 "Jo"
  have : ncol = [some (Value.vStr "Jo"), some (Value.vStr "Jo")] := by
    have h2 : lookupCol
        [("name", [some (Value.vStr "Jo"), some (Value.vStr "Jo")]),
         ("email", [some (Value.vStr "jo@example.com"), some (Value.vStr "jo@example.com")])]
        "name" = some [some (Value.vStr "Jo"), some (Value.vStr "Jo")] := by decide
    rw [h2] at hn
    exact (Option.some.inj hn).symm
  rw [this]
  rfl

/-- Concrete dataframe for the C9 witness. -/
def dfC9 : Table :=
  [("name", [none, some (Value.vStr "Jo")]), ("email", [none, none])]

/-- Witness for C9: the original row with a missing name receives the email
"user@example.com" after augmentation. -/
theorem augment_missing_name_user_email_witness :
    ∃ ncol ecol,
      lookupCol
        [("name", [none, some (Value.vStr "Jo"), some (Value.vStr "Jo")]),
         ("email", [some (Value.vStr "user@example.com"),
           some (Value.vStr "jo@example.com"), some (Value.vStr "jo@example.com")])]
        "name" = some ncol ∧
      lookupCol
        [("name", [none, some (Value.vStr "Jo"), some (Value.vStr "Jo")]),
         ("email", [some (Value.vStr "user@example.com"),
           some (Value.vStr "jo@example.com"), some (Value.vStr "jo@example.com")])]
        "email" = some ecol ∧
      ecol[0]? = some (some (Value.vStr "user@example.com")) := by
  have hA : augment_dataset dfC9 1 (fun _ => Strat.s2) trivAP
      = .ok [("name", [none, some (Value.vStr "Jo"), some (Value.vStr "Jo")]),
             ("email", [some (Value.vStr "user@example.com"),
               some (Value.vStr "jo@example.com"),
               some (Value.vStr "jo@example.com")])] := by rfl
  obtain ⟨ncol, ecol, hn, he, hpt⟩ :=
    augment_missing_name_user_email dfC9 1 (fun _ => Strat.s2) trivAP _ hA
      (by decide) (by decide)
  refine ⟨ncol, ecol, hn, he, ?_⟩
  apply hpt 0
  have : ncol = [none, some (Value.vStr "Jo"), some (Value.vStr "Jo")] := by
    have h2 : lookupCol
        [("name", [none, some (Value.vStr "Jo"), some (Value.vStr "Jo")]),
         ("email", [some (Value.vStr "user@example.com"),
           some (Value.vStr "jo@example.com"), some (Value.vStr "jo@example.com")])]
        "name" = some [none, some (Value.vStr "Jo"), some (Value.vStr "Jo")] := by decide
    rw [h2] at hn
    exact (Option.some.inj hn).symm
  rw [this]
  rfl

/-! ## Prompt parser: `parse_prompt_and_generate` (source lines 312-377)

The source lowercases and strips the prompt, splits on the literal
"columns:", extracts the digits of the left part as the row count, splits
the right part on "," into column definitions, and parses each definition
as `name type [args]`.  Malformed definitions abort the parse: the source
prints a message and returns (the explicit checks), or raises ValueError
inside the surrounding try (tuple unpacking of a range with more than one
"-", float conversion) which is caught and printed.  Both abort styles are
modelled as `Except.error` carrying the message (the CPython messages,
minus their quoted fragments, since the embedding avoids quote characters).
Python float literals are modelled with optional sign, digits and one
optional decimal point; exponents, inf/nan and digit underscores are not
modelled (no claim depends on them). -/

/-- Whitespace for `str.split()` / `str.strip()` (ASCII fragment). -/
def isWsp (c : Char) : Bool := c = ' ' || c = '\t' || c = '\n' || c = '\r'

/-- Split on every character satisfying p, keeping empty parts
(`str.split(sep)` for a one-character separator). -/
def splitPredL (p : Char → Bool) : List Char → List (List Char)
  | [] => [[]]
  | c :: t =>
      let r := splitPredL p t
      if p c then [] :: r
      else
        match r with
        | [] => [[c]]
        | h :: t2 => (c :: h) :: t2

/-- `str.strip()`. -/
def trimC (l : List Char) : List Char :=
  ((l.dropWhile isWsp).reverse.dropWhile isWsp).reverse

/-- ASCII uppercasing of one character (`str.upper`, ASCII fragment). -/
def upperChar (c : Char) : Char :=
  ((lowerTable.find? (fun p => p.2 = c)).map Prod.fst).getD c

/-- Substring split (`str.split(sep)` for a multi-character separator),
with enough fuel to scan the whole input. -/
def splitSubAux (sep : List Char) : ℕ → List Char → List Char → List (List Char)
  | 0, acc, l => [acc.reverse ++ l]
  | fuel + 1, acc, l =>
      if sep.isPrefixOf l && !sep.isEmpty then
        acc.reverse :: splitSubAux sep fuel [] (l.drop sep.length)
      else
        match l with
        | [] => [acc.reverse]
        | c :: t => splitSubAux sep fuel (c :: acc) t

/-- `s.split(sep)` for a list-of-characters string. -/
def splitOnSubL (sep l : List Char) : List (List Char) :=
  if sep.isEmpty then [l] else splitSubAux sep (l.length + 1) [] l

/-- Python float literal (simplified): optional sign, digits with at most
one decimal point, at least one digit. -/
def parseUnsigned (cs : List Char) : Option ℚ :=
  let intPart := cs.takeWhile isDigitCh
  let rest := cs.dropWhile isDigitCh
  match rest with
  | [] => if intPart.isEmpty then none else some (digitsToNat intPart)
  | '.' :: frac =>
      if (intPart.isEmpty && frac.isEmpty) || !(frac.all isDigitCh) then none
      else some ((digitsToNat intPart : ℚ) + (digitsToNat frac : ℚ) / (10 ^ frac.length))
  | _ => none

/-- `float(s)` (simplified as described in the section header). -/
def parseFloatChars (cs : List Char) : Option ℚ :=
  match cs with
  | '-' :: rest => (parseUnsigned rest).map (fun q => -q)
  | '+' :: rest => parseUnsigned rest
  | _ => parseUnsigned cs

/-- CPython message for `a, b = too-long-list`. -/
def unpackErr : String := "too many values to unpack (expected 2)"

/-- CPython message for `a, b = too-short-list`. -/
def unpackErrFew : String := "not enough values to unpack (expected 2, got 1)"

/-- CPython message for a failed `float(s)` (quotes omitted). -/
def convErr (s : String) : String := "could not convert string to float: " ++ s

/-- `min_val, max_val = parts` (tuple unpacking of a split). -/
def unpackTwo (l : List (List Char)) : Except String (List Char × List Char) :=
  match l with
  | [a, b] => .ok (a, b)
  | _ :: _ :: _ :: _ => .error unpackErr
  | _ => .error unpackErrFew

/-- `c.split()`: whitespace tokens of a column definition. -/
def tokensOf (c : List Char) : List (List Char) :=
  (splitPredL isWsp c).filter (fun t => !t.isEmpty)

/-- Parse one column definition (the body of the parsing loop, source lines
329-377). -/
def parseColDefC (c : List Char) : Except String ColInfo :=
  let tokens := tokensOf c
  if tokens.length < 2 then .error ("Invalid column definition: " ++ String.mk c)
  else
    let name := tokens.getD 0 []
    let dtype := tokens.getD 1 []
    if dtype = "int".toList || dtype = "float".toList then
      if tokens.length < 3 then
        .error ("Missing range for numeric column " ++ String.mk name)
      else
        let rangeStr := tokens.getD 2 []
        if !(rangeStr.contains '-') then
          .error ("Invalid range format for " ++ String.mk name)
        else
          match unpackTwo (splitPredL (fun ch => ch = '-') rangeStr) with
          | .error e => .error e
          | .ok (mnS, mxS) =>
              match parseFloatChars mnS with
              | none => .error (convErr (String.mk mnS))
              | some mn =>
                  match parseFloatChars mxS with
                  | none => .error (convErr (String.mk mxS))
                  | some mx =>
                      if dtype = "int".toList then
                        .ok { name := String.mk name, type := "int",
                              min? := some ((qtrunc mn : ℤ) : ℚ),
                              max? := some ((qtrunc mx : ℤ) : ℚ) }
                      else
                        .ok { name := String.mk name, type := "float",
                              min? := some mn, max? := some mx }
    else if dtype = "category".toList then
      if tokens.length < 3 then .error ("Missing categories for " ++ String.mk name)
      else
        .ok { name := String.mk name, type := "category",
              categories? := some ((splitPredL (fun ch => ch = '/') (tokens.getD 2 [])).map
                (fun x => String.mk ((trimC x).map upperChar))) }
    else if dtype = "date".toList then
      if tokens.length < 3 then .error ("Missing date range for " ++ String.mk name)
      else
        let dr := tokens.getD 2 []
        if !(dr.contains ':') then
          .error ("Invalid date range format for " ++ String.mk name ++ ", expected start:end")
        else
          match unpackTwo (splitPredL (fun ch => ch = ':') dr) with
          | .error e => .error e
          | .ok (sd, ed) =>
              .ok { name := String.mk name, type := "date",
                    startDate? := some (String.mk sd), endDate? := some (String.mk ed) }
    else if dtype = "string".toList then
      .ok { name := String.mk name, type := "string" }
    else .error ("Unsupported type " ++ String.mk dtype)

/-- Fallible parse of every column definition, first error wins. -/
def mapME (f : List Char → Except String ColInfo) :
    List (List Char) → Except String (List ColInfo)
  | [] => .ok []
  | c :: rest =>
      match f c with
      | .error e => .error e
      | .ok ci =>
          match mapME f rest with
          | .error e => .error e
          | .ok r => .ok (ci :: r)

/-- `prompt.strip().lower()`. -/
def prepPrompt (input : String) : List Char := (trimC input.toList).map lowerChar

/-- `prompt.split('columns:')`. -/
def promptParts (input : String) : List (List Char) :=
  splitOnSubL "columns:".toList (prepPrompt input)

/-- The stripped column definitions
(`[c.strip() for c in parts[1].strip().split(',')]`). -/
def promptColDefs (input : String) : List (List Char) :=
  (splitPredL (fun ch => ch = ',') (trimC ((promptParts input).getD 1 []))).map trimC

/-- The digits extracted from the row-count part
(`filter(str.isdigit, parts[0].strip())`). -/
def rowcountDigits (input : String) : List Char :=
  (trimC ((promptParts input).getD 0 [])).filter isDigitCh

/-- The prompt parser of `parse_prompt_and_generate`: prompt in, row count
and schema out, every abort (print-and-return or caught ValueError) an
`Except.error`. -/
def parse_prompt (input : String) : Except String (ℕ × List ColInfo) :=
  if (promptParts input).length ≠ 2 then
    .error "Prompt must contain a columns: section."
  else if (rowcountDigits input).isEmpty then
    .error "invalid literal for int with base 10"
  else
    match mapME parseColDefC (promptColDefs input) with
    | .error e => .error e
    | .ok schema => .ok (digitsToNat (rowcountDigits input), schema)

/-- Character-predicate splitting yields at least one part. -/
theorem splitPredL_ne_nil (p : Char → Bool) : ∀ l : List Char, splitPredL p l ≠ [] := by
  intro l
  induction l with
  | nil => simp [splitPredL]
  | cons c t ih =>
      simp only [splitPredL]
      split
      · simp
      · cases h : splitPredL p t with
        | nil => simp
        | cons h2 t2 => simp

/-- Character-predicate splitting yields one more part than there are
separator characters. -/
theorem splitPredL_length (p : Char → Bool) :
    ∀ l : List Char, (splitPredL p l).length = l.countP p + 1 := by
  intro l
  induction l with
  | nil => simp [splitPredL]
  | cons c t ih =>
      simp only [splitPredL, List.countP_cons]
      split
      · next hp =>
          simp only [List.length_cons, ih]
      · next hp =>
          cases h : splitPredL p t with
          | nil => exact absurd h (splitPredL_ne_nil p t)
          | cons h2 t2 =>
              rw [h] at ih
              simp only [List.length_cons] at ih ⊢
              omega

/-- Parts produced by character-predicate splitting contain no separator
character. -/
theorem splitPredL_mem_false (p : Char → Bool) :
    ∀ (l : List Char) (x : List Char), x ∈ splitPredL p l → ∀ ch ∈ x, p ch = false := by
  intro l
  induction l with
  | nil =>
      intro x hx ch hch
      simp [splitPredL] at hx
      subst hx
      cases hch
  | cons c t ih =>
      intro x hx ch hch
      simp only [splitPredL] at hx
      split at hx
      · rcases List.mem_cons.mp hx with h | h
        · subst h; cases hch
        · exact ih x h ch hch
      · next hp =>
          cases h : splitPredL p t with
          | nil => exact absurd h (splitPredL_ne_nil p t)
          | cons h2 t2 =>
              rw [h] at hx
              rcases List.mem_cons.mp hx with hx1 | hx1
              · subst hx1
                rcases List.mem_cons.mp hch with hc1 | hc1
                · subst hc1; simpa using hp
                · exact ih h2 (by rw [h]; exact List.mem_cons_self h2 t2) ch hc1
              · exact ih x (by rw [h]; exact List.mem_cons_of_mem h2 hx1) ch hch

/-- Tuple unpacking of three or more parts fails with the CPython message. -/
theorem unpackTwo_too_many (l : List (List Char)) (h : 3 ≤ l.length) :
    unpackTwo l = .error unpackErr := by
  match l, h with
  | a :: b :: c :: rest, _ => rfl

/-- What a successful `mapME` says element-wise. -/
theorem mapME_ok (f : List Char → Except String ColInfo) :
    ∀ (l : List (List Char)) (r : List ColInfo), mapME f l = .ok r →
      r.length = l.length ∧
      ∀ (i : ℕ) (c : List Char), l[i]? = some c →
        ∃ ci, f c = .ok ci ∧ r[i]? = some ci := by
  intro l
  induction l with
  | nil =>
      intro r h
      simp only [mapME, Except.ok.injEq] at h
      subst h
      exact ⟨rfl, by intro i c hc; simp at hc⟩
  | cons c0 rest ih =>
      intro r h
      simp only [mapME] at h
      cases hf : f c0 with
      | error e => rw [hf] at h; cases h
      | ok ci0 =>
          rw [hf] at h
          cases hr : mapME f rest with
          | error e => rw [hr] at h; cases h
          | ok r2 =>
              rw [hr] at h
              simp only [Except.ok.injEq] at h
              subst h
              obtain ⟨hlen, helem⟩ := ih r2 hr
              constructor
              · simp [hlen]
              · intro i c hc
                cases i with
                | zero =>
                    simp only [List.getElem?_cons_zero, Option.some.injEq] at hc
                    subst hc
                    exact ⟨ci0, hf, by simp⟩
                | succ j =>
                    simp only [List.getElem?_cons_succ] at hc ⊢
                    exact helem j c hc

/-- A successful parse means every column definition parsed. -/
theorem parse_prompt_ok_defs (input : String) (n : ℕ) (schema : List ColInfo)
    (h : parse_prompt input = .ok (n, schema)) :
    mapME parseColDefC (promptColDefs input) = .ok schema := by
  unfold parse_prompt at h
  split at h
  · cases h
  · split at h
    · cases h
    · cases hm : mapME parseColDefC (promptColDefs input) with
      | error e => rw [hm] at h; cases h
      | ok schema2 =>
          rw [hm] at h
          simp only [Except.ok.injEq, Prod.mk.injEq] at h
          rw [h.2]

/-- Characters of a string concatenation. -/
theorem toList_append (a b : String) : (a ++ b).toList = a.toList ++ b.toList := by
  simp [String.toList, String.data_append]

/-- `getD` at a valid index is a member. -/
theorem getD_mem_of_lt (l : List (List Char)) (i : ℕ) (h : i < l.length) :
    l.getD i [] ∈ l := by
  rw [List.getD_eq_getElem?_getD, List.getElem?_eq_getElem h]
  exact List.getElem_mem h

/-- `unpackTwo` errors carry one of the two CPython unpack messages. -/
theorem unpackTwo_error (l : List (List Char)) (e : String)
    (h : unpackTwo l = .error e) : e = unpackErr ∨ e = unpackErrFew := by
  unfold unpackTwo at h
  split at h
  · cases h
  · exact Or.inl (Except.error.inj h).symm
  · exact Or.inr (Except.error.inj h).symm

/-- A successful `unpackTwo` returns members of its input. -/
theorem unpackTwo_ok_mem (l : List (List Char)) (a b : List Char)
    (h : unpackTwo l = .ok (a, b)) : a ∈ l ∧ b ∈ l := by
  unfold unpackTwo at h
  split at h
  · next x y =>
      simp only [Except.ok.injEq, Prod.mk.injEq] at h
      obtain ⟨rfl, rfl⟩ := h
      exact ⟨by simp, by simp⟩
  · cases h
  · cases h

/-- Every error message of `parseColDefC` is either one of the generic
CPython messages (tuple unpacking, float conversion) or embeds a token of
the offending definition, or the whole definition. -/
theorem parseColDefC_error_classified (c : List Char) (m : String)
    (h : parseColDefC c = .error m) :
    m = unpackErr ∨ m = unpackErrFew ∨ (∃ s, m = convErr s) ∨
    (∃ t ∈ tokensOf c, t <:+: m.toList) ∨ c <:+: m.toList := by
  simp only [parseColDefC] at h
  split at h
  · right; right; right; right
    rw [← Except.error.inj h, toList_append]
    exact ⟨"Invalid column definition: ".toList, [], by simp⟩
  · next hlen2 =>
      split at h
      · split at h
        · right; right; right; left
          refine ⟨(tokensOf c).getD 0 [], getD_mem_of_lt _ 0 (by omega), ?_⟩
          rw [← Except.error.inj h, toList_append]
          exact ⟨"Missing range for numeric column ".toList, [], by simp⟩
        · split at h
          · right; right; right; left
            refine ⟨(tokensOf c).getD 0 [], getD_mem_of_lt _ 0 (by omega), ?_⟩
            rw [← Except.error.inj h, toList_append]
            exact ⟨"Invalid range format for ".toList, [], by simp⟩
          · split at h
            · next e heq =>
                rcases unpackTwo_error _ _ heq with h1 | h1 <;>
                  rw [← Except.error.inj h, h1]
                · exact Or.inl rfl
                · exact Or.inr (Or.inl rfl)
            · split at h
              · right; right; left
                exact ⟨_, (Except.error.inj h).symm⟩
              · split at h
                · right; right; left
                  exact ⟨_, (Except.error.inj h).symm⟩
                · split at h <;> exact Except.noConfusion h
      · split at h
        · split at h
          · right; right; right; left
            refine ⟨(tokensOf c).getD 0 [], getD_mem_of_lt _ 0 (by omega), ?_⟩
            rw [← Except.error.inj h, toList_append]
            exact ⟨"Missing categories for ".toList, [], by simp⟩
          · exact Except.noConfusion h
        · split at h
          · split at h
            · right; right; right; left
              refine ⟨(tokensOf c).getD 0 [], getD_mem_of_lt _ 0 (by omega), ?_⟩
              rw [← Except.error.inj h, toList_append]
              exact ⟨"Missing date range for ".toList, [], by simp⟩
            · split at h
              · right; right; right; left
                refine ⟨(tokensOf c).getD 0 [], getD_mem_of_lt _ 0 (by omega), ?_⟩
                rw [← Except.error.inj h, toList_append, toList_append]
                exact ⟨"Invalid date range format for ".toList, ", expected start:end".toList,
                  by simp⟩
              · split at h
                · next e heq =>
                    rcases unpackTwo_error _ _ heq with h1 | h1 <;>
                      rw [← Except.error.inj h, h1]
                    · exact Or.inl rfl
                    · exact Or.inr (Or.inl rfl)
                · exact Except.noConfusion h
          · split at h
            · exact Except.noConfusion h
            · right; right; right; left
              refine ⟨(tokensOf c).getD 1 [], getD_mem_of_lt _ 1 (by omega), ?_⟩
              rw [← Except.error.inj h, toList_append]
              exact ⟨"Unsupported type ".toList, [], by simp⟩

/-- C5 (amended): every malformed column definition aborts the whole parse
with an error and a partial schema is never returned (a successful parse
means every definition parsed, in order); the spec's example
"5 rows, columns: age int" fails with a message that names the offending
column "age", and a prompt missing the "columns:" separator fails; for the
parser's explicit structural checks the message embeds a token of the
offending definition (or the definition itself) — but the generic tuple
unpacking / float conversion messages raised inside the try block need not
reference the column at all (see the counterexample). -/
theorem parse_prompt_error_handling :
    (∀ (input : String) (n : ℕ) (schema : List ColInfo),
      parse_prompt input = .ok (n, schema) →
      schema.length = (promptColDefs input).length ∧
      ∀ (i : ℕ) (c : List Char), (promptColDefs input)[i]? = some c →
        ∃ ci, parseColDefC c = .ok ci ∧ schema[i]? = some ci) ∧
    (parse_prompt "5 rows, columns: age int"
        = .error "Missing range for numeric column age" ∧
      "age".toList <:+: "Missing range for numeric column age".toList) ∧
    (parse_prompt "5 rows age int" = .error "Prompt must contain a columns: section.") ∧
    (∀ (c : List Char) (m : String), parseColDefC c = .error m →
      m = unpackErr ∨ m = unpackErrFew ∨ (∃ s, m = convErr s) ∨
      (∃ t ∈ tokensOf c, t <:+: m.toList) ∨ c <:+: m.toList) := by
  refine ⟨?_, ⟨rfl, by decide⟩, rfl, parseColDefC_error_classified⟩
  intro input n schema h
  exact mapME_ok parseColDefC (promptColDefs input) schema
    (parse_prompt_ok_defs input n schema h)

/-- Witness for C5's amended claim at a concrete prompt that parses. -/
theorem parse_prompt_error_handling_witness :
    ([({ name := "a", type := "string" } : ColInfo)]).length
      = (promptColDefs "3, columns: a string").length ∧
    ∃ ci, parseColDefC ("a string".toList) = .ok ci := by
  obtain ⟨hi, _, _, _⟩ := parse_prompt_error_handling
  obtain ⟨hlen, hall⟩ :=
    hi "3, columns: a string" 3 [{ name := "a", type := "string" }] rfl
  refine ⟨hlen, ?_⟩
  obtain ⟨ci, hci, _⟩ := hall 0 ("a string".toList) (by rfl)
  exact ⟨ci, hci⟩

/-- C5 counterexample: for "5 rows, columns: age int 1-2-3" —  a malformed
(unparsable) numeric range — the parse aborts, but with the generic CPython
unpacking message, which identifies neither the column "age" nor the
offending definition. -/
theorem parse_generic_message_cex :
    parse_prompt "5 rows, columns: age int 1-2-3" = .error unpackErr ∧
    ¬ ("age".toList <:+: unpackErr.toList) ∧
    ¬ ("age int 1-2-3".toList <:+: unpackErr.toList) := by
  refine ⟨rfl, by decide, by decide⟩

/-- Unsigned float literals denote non-negative rationals. -/
theorem parseUnsigned_nonneg (cs : List Char) (q : ℚ)
    (h : parseUnsigned cs = some q) : 0 ≤ q := by
  simp only [parseUnsigned] at h
  split at h
  · split at h
    · cases h
    · rw [← Option.some.inj h]
      positivity
  · split at h
    · cases h
    · rw [← Option.some.inj h]
      positivity
  · cases h

/-- A dash-free string can only parse to a non-negative float. -/
theorem parseFloatChars_nonneg (cs : List Char) (q : ℚ)
    (hnd : ('-') ∉ cs) (h : parseFloatChars cs = some q) : 0 ≤ q := by
  unfold parseFloatChars at h
  split at h
  · next rest => exact absurd (List.mem_cons_self _ rest) hnd
  · next rest => exact parseUnsigned_nonneg rest q h
  · exact parseUnsigned_nonneg cs q h

/-- A parsed numeric column always carries a non-negative minimum: the
minimum token is a piece of the split on "-", hence dash-free. -/
theorem parseColDefC_min_nonneg (c : List Char) (ci : ColInfo)
    (h : parseColDefC c = .ok ci) (ht : ci.type = "int" ∨ ci.type = "float") :
    ∃ mn, ci.min? = some mn ∧ 0 ≤ mn := by
  simp only [parseColDefC] at h
  split at h
  · cases h
  · split at h
    · split at h
      · cases h
      · split at h
        · cases h
        · split at h
          · cases h
          · next mnS mxS heqUnpack =>
              have hmemMn : mnS ∈ splitPredL (fun ch => ch = '-') ((tokensOf c).getD 2 []) :=
                (unpackTwo_ok_mem _ _ _ heqUnpack).1
              have hnd : ('-') ∉ mnS := by
                intro hmem
                have := splitPredL_mem_false _ _ _ hmemMn '-' hmem
                simp at this
              split at h
              · cases h
              · next mn hmn =>
                  split at h
                  · cases h
                  · next mx hmx =>
                      have hmn0 : (0 : ℚ) ≤ mn := parseFloatChars_nonneg mnS mn hnd hmn
                      split at h
                      · obtain rfl := Except.ok.inj h
                        refine ⟨((qtrunc mn : ℤ) : ℚ), rfl, ?_⟩
                        have : (0 : ℤ) ≤ qtrunc mn := by
                          unfold qtrunc
                          rw [if_neg (by exact not_lt.mpr hmn0)]
                          exact Int.floor_nonneg.mpr hmn0
                        exact_mod_cast this
                      · obtain rfl := Except.ok.inj h
                        exact ⟨mn, rfl, hmn0⟩
    · split at h
      · split at h
        · cases h
        · obtain rfl := Except.ok.inj h
          rcases ht with ht | ht <;> simp at ht
      · split at h
        · split at h
          · cases h
          · split at h
            · cases h
            · split at h
              · cases h
              · obtain rfl := Except.ok.inj h
                rcases ht with ht | ht <;> simp at ht
        · split at h
          · obtain rfl := Except.ok.inj h
            rcases ht with ht | ht <;> simp at ht
          · cases h

/-- A numeric range token with two or more dashes makes the whole column
definition fail (tuple unpacking of more than two parts). -/
theorem parseColDefC_multidash (c r : List Char)
    (hd : (tokensOf c)[1]? = some ("int".toList) ∨ (tokensOf c)[1]? = some ("float".toList))
    (hr : (tokensOf c)[2]? = some r)
    (hc2 : 2 ≤ r.countP (fun ch => ch = '-')) :
    parseColDefC c = .error unpackErr := by
  have hlen : 2 < (tokensOf c).length := by
    by_contra hcon
    rw [List.getElem?_eq_none (by omega)] at hr
    cases hr
  have h2 : (tokensOf c).getD 2 [] = r := by
    rw [List.getD_eq_getElem?_getD, hr]; rfl
  have hmem : ('-') ∈ r := by
    have : 0 < r.countP (fun ch => ch = '-') := by omega
    obtain ⟨a, ha, hpa⟩ := List.countP_pos.mp this
    simp only [decide_eq_true_eq] at hpa
    subst hpa
    exact ha
  have hsplitlen : 3 ≤ (splitPredL (fun ch => ch = '-') r).length := by
    rw [splitPredL_length]
    omega
  simp only [parseColDefC]
  rw [if_neg (by omega)]
  rw [if_pos (by rcases hd with hd | hd <;> simp [hd])]
  rw [if_neg (by omega)]
  rw [h2, if_neg (by simpa using hmem)]
  rw [unpackTwo_too_many _ hsplitlen]

/-- C10: in `parse_prompt`, the range of an int/float column is split on
"-" and must give exactly two parts, so every range token with more than
one "-" (in particular a negative minimum like "-5-10") makes the whole
parse fail with the unpack error; consequently a negative lower bound is
inexpressible: every successfully parsed numeric column has min ≥ 0. -/
theorem prompt_range_dash_spec :
    (∀ (c r : List Char),
      ((tokensOf c)[1]? = some ("int".toList) ∨ (tokensOf c)[1]? = some ("float".toList)) →
      (tokensOf c)[2]? = some r →
      2 ≤ r.countP (fun ch => ch = '-') →
      parseColDefC c = .error unpackErr) ∧
    (∀ (input : String) (n : ℕ) (schema : List ColInfo),
      parse_prompt input = .ok (n, schema) →
      ∀ ci ∈ schema, (ci.type = "int" ∨ ci.type = "float") →
        ∃ mn, ci.min? = some mn ∧ 0 ≤ mn) := by
  refine ⟨parseColDefC_multidash, ?_⟩
  intro input n schema h ci hci ht
  obtain ⟨hlen, helem⟩ := mapME_ok parseColDefC (promptColDefs input) schema
    (parse_prompt_ok_defs input n schema h)
  obtain ⟨i, hig⟩ := List.mem_iff_getElem?.mp hci
  have hilen : i < (promptColDefs input).length := by
    rw [← hlen]
    exact (List.getElem?_eq_some.mp hig).1
  obtain ⟨ci2, hparse, hci2⟩ := helem i _ (List.getElem?_eq_getElem hilen)
  rw [hig] at hci2
  obtain rfl := Option.some.inj hci2
  exact parseColDefC_min_nonneg _ _ hparse ht

/-- Witness for C10 at the range token "-5-10": the definition
"x int -5-10" fails to parse (its range splits into three parts), and a
successfully parsed float column has a non-negative minimum. -/
theorem prompt_range_dash_spec_witness :
    parseColDefC ("x int -5-10".toList) = .error unpackErr ∧
    (∃ mn, ({ name := "a", type := "float", min? := some 1, max? := some 2 } :
        ColInfo).min? = some mn ∧ 0 ≤ mn) := by
  obtain ⟨ha, hb⟩ := prompt_range_dash_spec
  constructor
  · exact ha ("x int -5-10".toList) ("-5-10".toList) (Or.inl (by rfl)) (by rfl) (by decide)
  · exact hb "1, columns: a float 1-2" 1
      [{ name := "a", type := "float", min? := some 1, max? := some 2 }] rfl
      { name := "a", type := "float", min? := some 1, max? := some 2 } (by simp)
      (Or.inr rfl)

end DataGen
